import Mathlib

/-!
Verification of `scripts/create_test_egf_with_comparisons.py`.

The script is embedded shallowly: Python floats become exact rationals,
machine integers become `Int`/`Nat`, the seeded `random` module becomes an
explicit generator state threaded through every randomized step, and the
run that can raise `IndexError` returns an `Option`.
-/

namespace Egf

/-- Modelled from the spec: the randomness source is external
("randomness-source implementation details beyond the seeding contract" are
out of scope).  A seeded generator is a stream of raw rational values
together with a position; each primitive draw consumes one stream element
and reduces it to the unit interval `[0,1)` by taking its fractional part. -/
structure RNG where
  stream : ℕ → ℚ
  pos : ℕ

/-- Model of Python `random.random()`: one uniform draw in `[0,1)`,
advancing the generator. -/
def RNG.random (g : RNG) : ℚ × RNG :=
  (Int.fract (g.stream g.pos), ⟨g.stream, g.pos + 1⟩)

/-- Model of Python `random.randint(-1, 1)`: partition the unit draw into
three equal cells, yielding a value in `{-1, 0, 1}`. -/
def RNG.randint_pm1 (g : RNG) : Int × RNG :=
  let u := g.random
  (⌊3 * u.1⌋ - 1, u.2)

/-- Model of Python `random.choice(["a", "b"])`: the lower half of the unit
draw selects `"a"`, the upper half `"b"`. -/
def RNG.choice_ab (g : RNG) : String × RNG :=
  let u := g.random
  (if u.1 < 1 / 2 then "a" else "b", u.2)

/-- Model of Python `random.uniform(lo, hi)`: affine rescaling of the unit
draw. -/
def RNG.uniform_q (g : RNG) (lo hi : ℚ) : ℚ × RNG :=
  let u := g.random
  (lo + u.1 * (hi - lo), u.2)

/-- A submission from the EDF: identifier and ground-truth grade. -/
structure Submission where
  id : String
  grade : Int
deriving DecidableEq, Inhabited

/-- One synthetic LLM call record, as passed to `egf.add_llm_call`. -/
structure CallRecord where
  call_id : String
  timestamp : Int
  model : String
  temperature : ℚ
  max_tokens : Int
  messages : List (String × String)
  output_content : String
  stop_reason : String
  input_tokens : Int
  output_tokens : Int
  latency_ms : Int
deriving DecidableEq, Inhabited

/-- One grade result, as passed to `egf.add_grade_result`. -/
structure GradeResult where
  submission_id : String
  grade : Int
  grade_distribution : List ℚ
  call_ids : List String
  graded_at : Int
deriving DecidableEq, Inhabited

/-- One comparison, as passed to `egf.add_comparison`. -/
structure Comparison where
  comparison_id : String
  submission_a : String
  submission_b : String
  winner : String
  call_ids : List String
  compared_at : Int
  confidence : ℚ
  justification : String
deriving DecidableEq, Inhabited

/-- Modelled from the spec: the EGF artifact (external write path) is a
back-reference to the EDF, a description, and ordered collections of call
records, grade results and comparisons; the `add_*` methods append. -/
structure EGF where
  edf_path : String
  description : String
  llm_calls : List CallRecord
  grade_results : List GradeResult
  comparisons : List Comparison
deriving DecidableEq, Inhabited

/-- Modelled from the spec: `EGF.reference_edf` creates an artifact
referencing the EDF by path, with empty collections. -/
def EGF.reference_edf (edf_path description : String) : EGF :=
  ⟨edf_path, description, [], [], []⟩

/-- Python `f"{i:03d}"`: decimal rendering zero-padded to width 3. -/
def pad3 (n : ℕ) : String :=
  let s := toString n
  if s.length < 3 then String.mk (List.replicate (3 - s.length) '0') ++ s else s

def grade_call_id (i : ℕ) : String := "grade_call_" ++ pad3 i

def comp_call_id (k : ℕ) : String := "comp_call_" ++ pad3 k

def comp_id (k : ℕ) : String := "comp_" ++ pad3 k

def ext_comp_call_id (i : ℕ) : String := "ext_comp_call_" ++ pad3 i

def ext_comp_id (i : ℕ) : String := "ext_comp_" ++ pad3 i

/-- Lines 37-51: the LLM call recorded for grading submission `i`. -/
def grade_llm_call (ts : Int) (i : ℕ) (sub : Submission) : CallRecord :=
  { call_id := grade_call_id i
    timestamp := ts + i * 1000
    model := "claude-sonnet-4-20250514"
    temperature := 0
    max_tokens := 4096
    messages := [("user", "Grade this submission: " ++ sub.id ++ "...")]
    output_content :=
      "Grade: " ++ toString sub.grade ++
        "\n\nJustification: The submission demonstrates..."
    stop_reason := "end_turn"
    input_tokens := 2000
    output_tokens := 500
    latency_ms := 2500 }

/-- Line 55: `predicted_grade = max(0, min(10, sub.grade + noise))`. -/
def predicted_grade_of (grade noise : Int) : Int :=
  max 0 (min 10 (grade + noise))

/-- Lines 58-67: the 11-bucket distribution built around the predicted
grade. -/
def build_dist (predicted_grade : Int) : List ℚ :=
  let dist := List.replicate 11 (0 : ℚ)
  let dist := dist.set predicted_grade.toNat (7 / 10)
  let dist :=
    if predicted_grade > 0 then dist.set (predicted_grade - 1).toNat (3 / 20)
    else dist.set predicted_grade.toNat (dist.getD predicted_grade.toNat 0 + 3 / 20)
  if predicted_grade < 10 then dist.set (predicted_grade + 1).toNat (3 / 20)
  else dist.set predicted_grade.toNat (dist.getD predicted_grade.toNat 0 + 3 / 20)

/-- Lines 33-75: the body of the grading loop for the `i`-th submission,
producing the call record and the grade result while advancing the
generator by the single `randint` draw. -/
def grade_step (ts : Int) (g : RNG) (isub : ℕ × Submission) :
    RNG × (CallRecord × GradeResult) :=
  let i := isub.1
  let sub := isub.2
  let call := grade_llm_call ts i sub
  let d := g.randint_pm1
  let p := predicted_grade_of sub.grade d.1
  let res : GradeResult :=
    { submission_id := sub.id
      grade := p
      grade_distribution := build_dist p
      call_ids := [grade_call_id i]
      graded_at := ts + i * 1000 + 500 }
  (d.2, (call, res))

/-- Line 100: `winner = "b" if correct_winner == "a" else "a"`. -/
def flip_winner (w : String) : String := if w = "a" then "b" else "a"

/-- Lines 87-100: winner synthesis for one pair: ground-truth winner from
the grade difference (randomly broken tie), then kept or flipped by the
accuracy draw. -/
def comparison_winner (ga gb : Int) (accuracy : ℚ) (g : RNG) : String × RNG :=
  let gt_diff := ga - gb
  let cw :=
    if gt_diff > 0 then ("a", g)
    else if gt_diff < 0 then ("b", g)
    else g.choice_ab
  let r := cw.2.random
  (if r.1 < accuracy then cw.1 else flip_winner cw.1, r.2)

/-- Lines 103-120: the LLM call recorded for comparison number `k`. -/
def comp_llm_call (ts : Int) (k : ℕ) (sub_a sub_b : Submission)
    (winner : String) : CallRecord :=
  { call_id := comp_call_id k
    timestamp := ts + 100000 + k * 1000
    model := "claude-sonnet-4-20250514"
    temperature := 0
    max_tokens := 4096
    messages :=
      [("user", "Compare submissions " ++ sub_a.id ++ " and " ++ sub_b.id ++ "...")]
    output_content :=
      "Winner: " ++ winner.toUpper ++ "\n\nSubmission " ++ winner.toUpper ++
        " demonstrates stronger understanding..."
    stop_reason := "end_turn"
    input_tokens := 4000
    output_tokens := 800
    latency_ms := 4000 }

/-- Lines 79-80: the index pairs visited by the nested comparison loops,
`(i, j)` for `i` in `range(n)` and `j` in `range(i+1, min(i+3, n))`. -/
def pair_indices (n : ℕ) : List (ℕ × ℕ) :=
  (List.range n).flatMap fun i =>
    (List.range' (i + 1) (min (i + 3) n - (i + 1))).map fun j => (i, j)

/-- Lines 81-134: the body of the comparison loop for the pair at position
`k` (the running `comparison_count`) with indices `(i, j)`. -/
def comp_step (subs : List Submission) (accuracy : ℚ) (ts : Int) (g : RNG)
    (kij : ℕ × ℕ × ℕ) : RNG × (CallRecord × Comparison) :=
  let k := kij.1
  let sub_a := subs.getD kij.2.1 default
  let sub_b := subs.getD kij.2.2 default
  let w := comparison_winner sub_a.grade sub_b.grade accuracy g
  let call := comp_llm_call ts k sub_a sub_b w.1
  let conf := w.2.uniform_q (3 / 5) (19 / 20)
  let comp : Comparison :=
    { comparison_id := comp_id k
      submission_a := sub_a.id
      submission_b := sub_b.id
      winner := w.1
      call_ids := [comp_call_id k]
      compared_at := ts + 100000 + k * 1000 + 500
      confidence := conf.1
      justification :=
        "Submission " ++ w.1.toUpper ++
          " shows better analysis and clearer argumentation." }
  (conf.2, (call, comp))

/-- Lines 142-159: the LLM call recorded for anchor comparison `i`. -/
def anchor_llm_call (ts : Int) (i : ℕ) (sub : Submission) : CallRecord :=
  { call_id := ext_comp_call_id i
    timestamp := ts + 200000 + i * 1000
    model := "claude-sonnet-4-20250514"
    temperature := 0
    max_tokens := 4096
    messages := [("user", "Compare " ++ sub.id ++ " against exemplar anchor...")]
    output_content := "Winner: A\n\nThe submission exceeds the anchor quality..."
    stop_reason := "end_turn"
    input_tokens := 4000
    output_tokens := 600
    latency_ms := 3500 }

/-- Lines 161-170: the `i`-th external anchor comparison. -/
def anchor_comparison (ts : Int) (i : ℕ) (sub : Submission) : Comparison :=
  { comparison_id := ext_comp_id i
    submission_a := sub.id
    submission_b := "external_anchor_exemplar"
    winner := "a"
    call_ids := [ext_comp_call_id i]
    compared_at := ts + 200000 + i * 1000 + 500
    confidence := 17 / 20
    justification := "Submission exceeds the anchor quality in argumentation." }

/-- Lines 137-170: the anchor loop over the given index list; `submissions[i]`
out of range is Python's `IndexError`, modelled as `none`. -/
def anchor_loop (subs : List Submission) (ts : Int) :
    List ℕ → Option (List (CallRecord × Comparison))
  | [] => some []
  | i :: rest =>
    match subs[i]? with
    | none => none
    | some sub =>
      match anchor_loop subs ts rest with
      | none => none
      | some l => some ((anchor_llm_call ts i sub, anchor_comparison ts i sub) :: l)

/-- A loop that threads a state through a list, collecting one output per
element (the shape of all three generation loops). -/
def stateful_map {σ α β : Type _} (f : σ → α → σ × β) : σ → List α → σ × List β
  | s, [] => (s, [])
  | s, a :: as =>
    let sb := f s a
    let rest := stateful_map f sb.1 as
    (rest.1, sb.2 :: rest.2)

/-- The grading loop over `enumerate(submissions)`. -/
def grade_records (ts : Int) (g : RNG) (subs : List Submission) :
    RNG × List (CallRecord × GradeResult) :=
  stateful_map (grade_step ts) g subs.enum

/-- The comparison loop over the enumerated pair indices. -/
def comparison_records (subs : List Submission) (accuracy : ℚ) (ts : Int)
    (g : RNG) : RNG × List (CallRecord × Comparison) :=
  stateful_map (comp_step subs accuracy ts) g (pair_indices subs.length).enum

/-- Lines 13-178: the whole generation routine.  `prng` is the external
pseudo-random algorithm mapping a seed to a raw stream (`random.seed`),
`now_ms` is the wall-clock capture `int(datetime.now().timestamp() * 1000)`,
and the external `egf.save` is modelled by returning the artifact.  The
result is `none` when the run dies with `IndexError` in the anchor loop. -/
def create_egf_with_comparisons (prng : Int → ℕ → ℚ) (edf_path : String)
    (submissions : List Submission) (output_path : String) (accuracy : ℚ)
    (seed : Int) (description : String) (now_ms : Int) : Option EGF :=
  let egf0 := EGF.reference_edf edf_path description
  let timestamp := now_ms
  let g0 : RNG := ⟨prng seed, 0⟩
  let gr := grade_records timestamp g0 submissions
  let cr := comparison_records submissions accuracy timestamp gr.1
  match anchor_loop submissions timestamp (List.range 3) with
  | none => none
  | some anchors =>
    some { egf0 with
      llm_calls :=
        gr.2.map Prod.fst ++ cr.2.map Prod.fst ++ anchors.map Prod.fst
      grade_results := gr.2.map Prod.snd
      comparisons := cr.2.map Prod.snd ++ anchors.map Prod.snd }

/-- Spec-side definition, following the spec's words: the true winner is
"a" if `g_a > g_b`, "b" if `g_a < g_b`, and the tie-break choice if the
grades are equal. -/
def spec_true_winner (ga gb : Int) (tiebreak : String) : String :=
  if ga > gb then "a" else if ga < gb then "b" else tiebreak

/-- Spec-side definition, following the spec's words: the observed winner
equals the true winner when `r < accuracy`, and the opposite side
otherwise. -/
def spec_observed_winner (tw : String) (r accuracy : ℚ) : String :=
  if r < accuracy then tw else if tw = "a" then "b" else "a"

/-- Spec-side definition, following the spec's words: the value of bucket
`k` of the distribution around predicted grade `p`: `0.7` at `p`, plus the
`0.15` of each out-of-range neighbour, `0.15` at each in-range neighbour,
`0` elsewhere. -/
def spec_dist_val (p : Int) (k : ℕ) : ℚ :=
  if (k : Int) = p then
    7 / 10 + (if p = 0 then 3 / 20 else 0) + (if p = 10 then 3 / 20 else 0)
  else if (k : Int) = p - 1 ∨ (k : Int) = p + 1 then 3 / 20
  else 0

/-- A grade result with its wall-clock-derived timestamp erased. -/
def GradeResult.strip_time (r : GradeResult) : GradeResult :=
  { r with graded_at := 0 }

/-- A comparison with its wall-clock-derived timestamp erased. -/
def Comparison.strip_time (c : Comparison) : Comparison :=
  { c with compared_at := 0 }

/-- The timestamp-free view of a run's grade-result and comparison
sequences. -/
def run_view (o : Option EGF) : Option (List GradeResult × List Comparison) :=
  o.map fun e =>
    (e.grade_results.map GradeResult.strip_time,
     e.comparisons.map Comparison.strip_time)

/-- A concrete three-element submission list for witnesses. -/
def ex_subs : List Submission := [⟨"s1", 5⟩, ⟨"s2", 3⟩, ⟨"s3", 7⟩]

/-- A concrete pseudo-random algorithm for witnesses: every raw draw is
`3/4`, so every `randint(-1, 1)` yields `+1`. -/
def ex_prng : Int → ℕ → ℚ := fun _ _ => 3 / 4

/-! ### Helper lemmas -/

theorem RNG.random_nonneg (g : RNG) : 0 ≤ (g.random).1 :=
  Int.fract_nonneg _

theorem RNG.random_lt_one (g : RNG) : (g.random).1 < 1 :=
  Int.fract_lt_one _

theorem RNG.randint_pm1_mem (g : RNG) :
    (g.randint_pm1).1 = -1 ∨ (g.randint_pm1).1 = 0 ∨ (g.randint_pm1).1 = 1 := by
  have h0 : (0 : ℚ) ≤ Int.fract (g.stream g.pos) := Int.fract_nonneg _
  have h1 : Int.fract (g.stream g.pos) < 1 := Int.fract_lt_one _
  have hf0 : (0 : Int) ≤ ⌊3 * Int.fract (g.stream g.pos)⌋ := by
    rw [Int.le_floor]
    positivity
  have hf1 : ⌊3 * Int.fract (g.stream g.pos)⌋ < 3 := by
    rw [Int.floor_lt]
    push_cast
    linarith
  simp only [RNG.randint_pm1, RNG.random]
  omega

@[simp]
theorem stateful_map_nil {σ α β : Type _} (f : σ → α → σ × β) (s : σ) :
    stateful_map f s [] = (s, []) := rfl

@[simp]
theorem stateful_map_cons {σ α β : Type _} (f : σ → α → σ × β) (s : σ)
    (a : α) (as : List α) :
    stateful_map f s (a :: as) =
      ((stateful_map f (f s a).1 as).1,
        (f s a).2 :: (stateful_map f (f s a).1 as).2) := rfl

theorem stateful_map_length {σ α β : Type _} (f : σ → α → σ × β) :
    ∀ (l : List α) (s : σ), (stateful_map f s l).2.length = l.length := by
  intro l
  induction l with
  | nil => intro s; rfl
  | cons a as ih => intro s; simp [ih]

theorem stateful_map_forall2 {σ α β : Type _} (f : σ → α → σ × β)
    (Q : α → β → Prop) (h : ∀ s a, Q a (f s a).2) :
    ∀ (l : List α) (s : σ), List.Forall₂ Q l (stateful_map f s l).2 := by
  intro l
  induction l with
  | nil => intro s; exact List.Forall₂.nil
  | cons a as ih =>
    intro s
    exact List.Forall₂.cons (h s a) (ih (f s a).1)

theorem stateful_map_congr {σ α β γ : Type _} (f₁ f₂ : σ → α → σ × β)
    (strip : β → γ)
    (h : ∀ s a, (f₁ s a).1 = (f₂ s a).1 ∧ strip (f₁ s a).2 = strip (f₂ s a).2) :
    ∀ (l : List α) (s : σ),
      (stateful_map f₁ s l).1 = (stateful_map f₂ s l).1 ∧
        (stateful_map f₁ s l).2.map strip = (stateful_map f₂ s l).2.map strip := by
  intro l
  induction l with
  | nil => intro s; exact ⟨rfl, rfl⟩
  | cons a as ih =>
    intro s
    have hs := h s a
    have ihs := ih (f₁ s a).1
    simp only [stateful_map_cons, List.map_cons]
    rw [← hs.1]
    exact ⟨ihs.1, by rw [hs.2, ihs.2]⟩

theorem forall2_mem_right {α β : Type _} {Q : α → β → Prop} :
    ∀ {l : List α} {out : List β}, List.Forall₂ Q l out →
      ∀ b ∈ out, ∃ a ∈ l, Q a b := by
  intro l out h
  induction h with
  | nil => intro b hb; cases hb
  | cons hq _ ih =>
    intro b hb
    rcases List.mem_cons.1 hb with rfl | hb
    · exact ⟨_, List.mem_cons_self _ _, hq⟩
    · rcases ih b hb with ⟨a, ha, hab⟩
      exact ⟨a, List.mem_cons_of_mem _ ha, hab⟩

theorem forall2_map_map {α β γ : Type _} {R : β → γ → Prop} {g₁ : α → β}
    {g₂ : α → γ} : ∀ {l : List α}, (∀ b ∈ l, R (g₁ b) (g₂ b)) →
      List.Forall₂ R (l.map g₁) (l.map g₂) := by
  intro l
  induction l with
  | nil => intro _; exact List.Forall₂.nil
  | cons a as ih =>
    intro h
    exact List.Forall₂.cons (h a (List.mem_cons_self _ _))
      (ih fun b hb => h b (List.mem_cons_of_mem _ hb))

theorem length_flatMap_sum {α β : Type _} (f : α → List β) :
    ∀ l : List α, (l.flatMap f).length = (l.map fun a => (f a).length).sum := by
  intro l
  induction l with
  | nil => rfl
  | cons a as ih => simp [List.flatMap_cons, ih]

theorem countP_flatMap_sum {α β : Type _} (p : β → Bool) (f : α → List β) :
    ∀ l : List α,
      (l.flatMap f).countP p = (l.map fun a => (f a).countP p).sum := by
  intro l
  induction l with
  | nil => rfl
  | cons a as ih => simp [List.flatMap_cons, List.countP_append, ih]

theorem sum_map_range_const (f : ℕ → ℕ) (c : ℕ) :
    ∀ m : ℕ, (∀ i, i < m → f i = c) → ((List.range m).map f).sum = c * m := by
  intro m
  induction m with
  | zero => intro _; rfl
  | succ m ih =>
    intro h
    rw [List.range_succ, List.map_append, List.sum_append]
    rw [ih fun i hi => h i (Nat.lt_succ_of_lt hi)]
    simp [h m (Nat.lt_succ_self m), Nat.mul_succ]

theorem sum_map_range_single (f : ℕ → ℕ) (i : ℕ)
    (h0 : ∀ a, a ≠ i → f a = 0) :
    ∀ n : ℕ, i < n → ((List.range n).map f).sum = f i := by
  intro n
  induction n with
  | zero => intro h; cases h
  | succ n ih =>
    intro h
    rw [List.range_succ, List.map_append, List.sum_append]
    rcases Nat.lt_or_ge i n with hi | hi
    · rw [ih hi]
      simp [h0 n (by omega)]
    · have : i = n := by omega
      subst this
      rw [sum_map_range_const f 0 i fun a ha => h0 a (by omega)]
      simp

theorem int_toNat_lit (n : ℕ) :
    ((no_index (OfNat.ofNat n) : ℤ)).toNat = OfNat.ofNat n := rfl

theorem mem_pair_indices (n i j : ℕ) :
    (i, j) ∈ pair_indices n ↔ i < j ∧ j ≤ i + 2 ∧ j < n := by
  simp only [pair_indices, List.mem_flatMap, List.mem_map, List.mem_range,
    List.mem_range'_1, Prod.mk.injEq]
  constructor
  · rintro ⟨a, ha, b, hb, rfl, rfl⟩
    omega
  · intro h
    exact ⟨i, by omega, j, by omega, rfl, rfl⟩

theorem pair_indices_length_eq (n : ℕ) (h : 2 ≤ n) :
    (pair_indices n).length = 2 * n - 3 := by
  obtain ⟨m, rfl⟩ : ∃ m, n = m + 2 := ⟨n - 2, by omega⟩
  unfold pair_indices
  rw [length_flatMap_sum]
  simp only [List.length_map, List.length_range']
  rw [List.range_succ, List.range_succ, List.map_append, List.map_append,
    List.sum_append, List.sum_append]
  rw [sum_map_range_const _ 2 m fun i hi => by omega]
  simp
  omega

theorem pair_indices_length_le (n : ℕ) : (pair_indices n).length ≤ 2 * n := by
  rcases Nat.lt_or_ge n 2 with h | h
  · interval_cases n <;> decide
  · rw [pair_indices_length_eq n h]
    omega

theorem pair_indices_countP (n i : ℕ) (h : i + 2 < n) :
    (pair_indices n).countP (fun p => p.1 == i) = 2 := by
  unfold pair_indices
  rw [countP_flatMap_sum]
  rw [sum_map_range_single _ i ?zeros n (by omega)]
  case zeros =>
    intro a ha
    rw [List.countP_eq_zero]
    intro p hp
    rcases List.mem_map.1 hp with ⟨j, _, rfl⟩
    simp [ha]
  have hall :
      ∀ p ∈ (List.range' (i + 1) (min (i + 3) n - (i + 1))).map fun j => (i, j),
        (fun p : ℕ × ℕ => p.1 == i) p = true := by
    intro p hp
    rcases List.mem_map.1 hp with ⟨j, _, rfl⟩
    simp
  rw [List.countP_eq_length.2 hall]
  simp
  omega

theorem stateful_map_all {σ α β : Type _} (f : σ → α → σ × β) (P : β → Prop)
    (h : ∀ s a, P (f s a).2) :
    ∀ (l : List α) (s : σ), ∀ b ∈ (stateful_map f s l).2, P b := by
  intro l
  induction l with
  | nil => intro s b hb; cases hb
  | cons a as ih =>
    intro s b hb
    rcases List.mem_cons.1 hb with rfl | hb
    · exact h s a
    · exact ih (f s a).1 b hb

theorem forall2_of_forall2_enumFrom {α β : Type _} {R : α → β → Prop} :
    ∀ {l : List α} {out : List β} {i : ℕ},
      List.Forall₂ (fun (p : ℕ × α) b => R p.2 b) (l.enumFrom i) out →
        List.Forall₂ R l out := by
  intro l
  induction l with
  | nil =>
    intro out i h
    cases h
    exact List.Forall₂.nil
  | cons a as ih =>
    intro out i h
    rw [List.enumFrom_cons] at h
    cases h with
    | cons h1 h2 => exact List.Forall₂.cons h1 (ih h2)

theorem getD_mem_of_lt {α : Type _} [Inhabited α] (l : List α) (i : ℕ)
    (h : i < l.length) : l.getD i default ∈ l := by
  rw [List.getD_eq_getElem?_getD, List.getElem?_eq_getElem h]
  exact List.getElem_mem h

theorem ex_randint : ((⟨ex_prng 42, 0⟩ : RNG).randint_pm1).1 = 1 := by
  show ⌊3 * Int.fract ((3 : ℚ) / 4)⌋ - 1 = 1
  rw [Int.fract_eq_self.2 (by norm_num)]
  norm_num

theorem anchor_loop_cons (a b c : Submission) (rest : List Submission)
    (ts : Int) :
    anchor_loop (a :: b :: c :: rest) ts (List.range 3) =
      some
        [(anchor_llm_call ts 0 a, anchor_comparison ts 0 a),
          (anchor_llm_call ts 1 b, anchor_comparison ts 1 b),
          (anchor_llm_call ts 2 c, anchor_comparison ts 2 c)] := by
  simp [anchor_loop, List.range_succ]

theorem anchor_loop_short (subs : List Submission) (ts : Int)
    (h : subs.length < 3) : anchor_loop subs ts (List.range 3) = none := by
  rcases subs with _ | ⟨a, _ | ⟨b, _ | ⟨c, rest⟩⟩⟩
  · rfl
  · rfl
  · rfl
  · simp only [List.length_cons] at h
    omega

theorem create_eq_some (prng : Int → ℕ → ℚ) (edf_path output_path : String)
    (a b c : Submission) (rest : List Submission) (accuracy : ℚ) (seed : Int)
    (description : String) (now : Int) :
    create_egf_with_comparisons prng edf_path (a :: b :: c :: rest) output_path
        accuracy seed description now =
      some
        { edf_path := edf_path
          description := description
          llm_calls :=
            (grade_records now ⟨prng seed, 0⟩ (a :: b :: c :: rest)).2.map
                Prod.fst ++
              (comparison_records (a :: b :: c :: rest) accuracy now
                    (grade_records now ⟨prng seed, 0⟩
                        (a :: b :: c :: rest)).1).2.map
                Prod.fst ++
              [anchor_llm_call now 0 a, anchor_llm_call now 1 b,
                anchor_llm_call now 2 c]
          grade_results :=
            (grade_records now ⟨prng seed, 0⟩ (a :: b :: c :: rest)).2.map
              Prod.snd
          comparisons :=
            (comparison_records (a :: b :: c :: rest) accuracy now
                  (grade_records now ⟨prng seed, 0⟩
                      (a :: b :: c :: rest)).1).2.map
              Prod.snd ++
              [anchor_comparison now 0 a, anchor_comparison now 1 b,
                anchor_comparison now 2 c] } := by
  simp only [create_egf_with_comparisons, anchor_loop_cons, List.map_cons,
    List.map_nil, EGF.reference_edf]

theorem create_view_eq (prng : Int → ℕ → ℚ) (edf_path output_path : String)
    (subs : List Submission) (accuracy : ℚ) (seed : Int) (description : String)
    (t₁ t₂ : Int) :
    run_view (create_egf_with_comparisons prng edf_path subs output_path
        accuracy seed description t₁) =
      run_view (create_egf_with_comparisons prng edf_path subs output_path
        accuracy seed description t₂) := by
  have hg := stateful_map_congr (grade_step t₁) (grade_step t₂)
    (fun p => GradeResult.strip_time p.2) (fun s a => ⟨rfl, rfl⟩)
    subs.enum ⟨prng seed, 0⟩
  rcases Nat.lt_or_ge subs.length 3 with h | h
  · simp only [create_egf_with_comparisons]
    rw [anchor_loop_short subs t₁ h, anchor_loop_short subs t₂ h]
  · rcases subs with _ | ⟨a, _ | ⟨b, _ | ⟨c, rest⟩⟩⟩
    · simp at h
    · simp at h
    · simp at h
    · have hc := stateful_map_congr
        (comp_step (a :: b :: c :: rest) accuracy t₁)
        (comp_step (a :: b :: c :: rest) accuracy t₂)
        (fun p => Comparison.strip_time p.2) (fun s a => ⟨rfl, rfl⟩)
        (pair_indices (a :: b :: c :: rest).length).enum
        (stateful_map (grade_step t₁) ⟨prng seed, 0⟩
          (a :: b :: c :: rest).enum).1
      rw [create_eq_some, create_eq_some]
      simp only [run_view, Option.map_some', Option.some.injEq, Prod.mk.injEq,
        grade_records, comparison_records, List.map_append, List.map_map,
        List.map_cons, List.map_nil]
      rw [← hg.1]
      constructor
      · exact hg.2
      · congr 1
        exact hc.2

/-! ### Claim theorems -/

/-- C1: for every pair of ground-truth grades the synthesizer's winner is
the spec's observed winner applied to the spec's true winner ("a" when
`g_a > g_b`, "b" when `g_a < g_b`, the random choice on a tie), where the
accuracy draw `r` is the next uniform value, lies in `[0,1)`, and the
observed winner equals the true winner exactly when `r < accuracy`. -/
theorem c1_comparison_winner_refines_spec (ga gb : Int) (accuracy : ℚ)
    (g : RNG) :
    comparison_winner ga gb accuracy g =
      (spec_observed_winner (spec_true_winner ga gb (g.choice_ab).1)
          ((if ga = gb then (g.choice_ab).2 else g).random).1 accuracy,
        ((if ga = gb then (g.choice_ab).2 else g).random).2) ∧
    ((g.choice_ab).1 = "a" ∨ (g.choice_ab).1 = "b") ∧
    0 ≤ ((if ga = gb then (g.choice_ab).2 else g).random).1 ∧
    ((if ga = gb then (g.choice_ab).2 else g).random).1 < 1 := by
  refine ⟨?_, ?_, RNG.random_nonneg _, RNG.random_lt_one _⟩
  · unfold comparison_winner spec_observed_winner spec_true_winner flip_winner
    rcases lt_trichotomy ga gb with h | h | h
    · have h1 : ¬ga - gb > 0 := by omega
      have h2 : ga - gb < 0 := by omega
      have h3 : ¬ga > gb := by omega
      have h5 : ¬ga = gb := by omega
      simp [h1, h2, h3, h, h5]
    · have h1 : ¬ga - gb > 0 := by omega
      have h2 : ¬ga - gb < 0 := by omega
      have h3 : ¬ga > gb := by omega
      have h4 : ¬ga < gb := by omega
      simp [h1, h2, h3, h4, h]
    · have h1 : ga - gb > 0 := by omega
      have h5 : ¬ga = gb := by omega
      simp [h1, h, h5]
  · unfold RNG.choice_ab
    rcases lt_or_ge ((g.random).1) (1 / 2) with h | h
    · exact Or.inl (by
        show (if (g.random).1 < 1 / 2 then "a" else "b") = "a"
        rw [if_pos h])
    · exact Or.inr (by
        show (if (g.random).1 < 1 / 2 then "a" else "b") = "b"
        rw [if_neg (not_lt.2 h)])

set_option maxHeartbeats 1000000 in
/-- C2: for every predicted grade `p` in `0..10` the 11-element
distribution has bucket values given by the spec formula (0.7 at `p` plus
the 0.15 of each out-of-range neighbour, 0.15 at in-range neighbours,
0 elsewhere), sums to 1, is componentwise non-negative, and carries at
least 0.7 at `p`. -/
theorem c2_build_dist_matches_spec (p : Int) (h0 : 0 ≤ p) (h10 : p ≤ 10) :
    (build_dist p).length = 11 ∧
    (∀ k : ℕ, k < 11 → (build_dist p).getD k 0 = spec_dist_val p k) ∧
    (build_dist p).sum = 1 ∧
    (∀ x ∈ build_dist p, 0 ≤ x) ∧
    (7 / 10 : ℚ) ≤ (build_dist p).getD p.toNat 0 := by
  interval_cases p <;>
    refine ⟨by norm_num [build_dist, List.replicate_succ, int_toNat_lit],
      fun k hk => by
        interval_cases k <;>
          norm_num [build_dist, spec_dist_val, List.replicate_succ,
            int_toNat_lit],
      by norm_num [build_dist, List.replicate_succ, int_toNat_lit],
      by norm_num [build_dist, List.replicate_succ, int_toNat_lit,
        List.forall_mem_cons],
      by norm_num [build_dist, List.replicate_succ, int_toNat_lit]⟩

/-- C2 witness: the distribution at the boundary grade 0. -/
theorem c2_build_dist_witness :
    (build_dist 0).length = 11 ∧
    (∀ k : ℕ, k < 11 → (build_dist 0).getD k 0 = spec_dist_val 0 k) ∧
    (build_dist 0).sum = 1 ∧
    (∀ x ∈ build_dist 0, 0 ≤ x) ∧
    (7 / 10 : ℚ) ≤ (build_dist 0).getD (0 : Int).toNat 0 :=
  c2_build_dist_matches_spec 0 (by norm_num) (by norm_num)

/-- C6: for every ground-truth grade in `0..10`, the drawn noise is in
`{-1, 0, 1}` and the predicted grade is the clamp of grade plus noise,
hence lies in `0..10` and within distance 1 of the ground truth. -/
theorem c6_grade_synthesizer (g : RNG) (grade : Int) (h0 : 0 ≤ grade)
    (h10 : grade ≤ 10) :
    ((g.randint_pm1).1 = -1 ∨ (g.randint_pm1).1 = 0 ∨ (g.randint_pm1).1 = 1) ∧
    predicted_grade_of grade (g.randint_pm1).1 =
      max 0 (min 10 (grade + (g.randint_pm1).1)) ∧
    0 ≤ predicted_grade_of grade (g.randint_pm1).1 ∧
    predicted_grade_of grade (g.randint_pm1).1 ≤ 10 ∧
    |predicted_grade_of grade (g.randint_pm1).1 - grade| ≤ 1 := by
  have hmem := RNG.randint_pm1_mem g
  refine ⟨hmem, rfl, ?_, ?_, ?_⟩
  · unfold predicted_grade_of
    omega
  · unfold predicted_grade_of
    omega
  · rw [abs_le]
    unfold predicted_grade_of
    rcases hmem with h | h | h <;> rw [h] <;> omega

/-- C6 witness: at the all-zero stream the noise is `-1` and grade 5 is
predicted as 4. -/
theorem c6_grade_synthesizer_witness :
    (((⟨fun _ => 0, 0⟩ : RNG).randint_pm1).1 = -1 ∨
      ((⟨fun _ => 0, 0⟩ : RNG).randint_pm1).1 = 0 ∨
      ((⟨fun _ => 0, 0⟩ : RNG).randint_pm1).1 = 1) ∧
    predicted_grade_of 5 ((⟨fun _ => 0, 0⟩ : RNG).randint_pm1).1 =
      max 0 (min 10 (5 + ((⟨fun _ => 0, 0⟩ : RNG).randint_pm1).1)) ∧
    0 ≤ predicted_grade_of 5 ((⟨fun _ => 0, 0⟩ : RNG).randint_pm1).1 ∧
    predicted_grade_of 5 ((⟨fun _ => 0, 0⟩ : RNG).randint_pm1).1 ≤ 10 ∧
    |predicted_grade_of 5 ((⟨fun _ => 0, 0⟩ : RNG).randint_pm1).1 - 5| ≤ 1 :=
  c6_grade_synthesizer ⟨fun _ => 0, 0⟩ 5 (by norm_num) (by norm_num)

/-- C5: the non-anchor comparison pairs are exactly the `(i, j)` with
`i < j ≤ i + 2 < n + 2` and `j < n`; their number is at most `2n`, exactly
`2n - 3` once `n ≥ 2`, and every index `i` with `i + 2 < n` occurs exactly
twice as the earlier member. -/
theorem c5_pair_generator (n : ℕ) :
    (∀ i j : ℕ, (i, j) ∈ pair_indices n ↔ i < j ∧ j ≤ i + 2 ∧ j < n) ∧
    (pair_indices n).length ≤ 2 * n ∧
    (2 ≤ n → (pair_indices n).length = 2 * n - 3) ∧
    (∀ i : ℕ, i + 2 < n → (pair_indices n).countP (fun p => p.1 == i) = 2) :=
  ⟨fun i j => mem_pair_indices n i j, pair_indices_length_le n,
    fun h => pair_indices_length_eq n h, fun i h => pair_indices_countP n i h⟩

/-- C5 witness: ten submissions yield 17 pairs and index 0 appears twice
as the earlier member. -/
theorem c5_pair_generator_witness :
    (pair_indices 10).length = 2 * 10 - 3 ∧
    (pair_indices 10).countP (fun p => p.1 == 0) = 2 :=
  ⟨(c5_pair_generator 10).2.2.1 (by norm_num),
    (c5_pair_generator 10).2.2.2 0 (by norm_num)⟩

/-- C9: with fewer than three submissions the run aborts in the anchor
loop (which unconditionally indexes the first three submissions) and no
artifact is produced. -/
theorem c9_fewer_than_three_submissions (prng : Int → ℕ → ℚ)
    (edf_path : String) (subs : List Submission) (output_path : String)
    (accuracy : ℚ) (seed : Int) (description : String) (now : Int)
    (h : subs.length < 3) :
    create_egf_with_comparisons prng edf_path subs output_path accuracy seed
        description now = none ∧
    anchor_loop subs now (List.range 3) = none := by
  have ha := anchor_loop_short subs now h
  refine ⟨?_, ha⟩
  simp only [create_egf_with_comparisons]
  rw [ha]

/-- C9 witness: a single-submission run aborts. -/
theorem c9_fewer_than_three_submissions_witness :
    create_egf_with_comparisons ex_prng "d/test.edf" [⟨"s1", 5⟩] "out.egf"
        (4 / 5) 42 "Test grading with comparisons" 0 = none ∧
    anchor_loop [⟨"s1", 5⟩] 0 (List.range 3) = none :=
  c9_fewer_than_three_submissions ex_prng "d/test.edf" [⟨"s1", 5⟩] "out.egf"
    (4 / 5) 42 "Test grading with comparisons" 0 (by decide)

/-- C3 counterexample: two runs with identical submissions, seed and
accuracy but different wall-clock captures produce different GradeResult
sequences (their timestamps differ), so the output is not byte-identical
including timestamps. -/
theorem c3_determinism_counterexample :
    Option.map (fun e => e.grade_results.map GradeResult.graded_at)
        (create_egf_with_comparisons ex_prng "d/test.edf" ex_subs "out.egf"
          (4 / 5) 42 "Test grading with comparisons" 0) ≠
      Option.map (fun e => e.grade_results.map GradeResult.graded_at)
        (create_egf_with_comparisons ex_prng "d/test.edf" ex_subs "out.egf"
          (4 / 5) 42 "Test grading with comparisons" 86400000) := by
  decide

/-- C3 amended: two runs with identical submission sequence, seeded
stream, and accuracy produce GradeResult and Comparison sequences that are
identical in every field except the wall-clock-derived timestamps
(`graded_at`, `compared_at`); with the wall-clock capture also equal the
runs are fully identical. -/
theorem c3_determinism_modulo_timestamps (prng : Int → ℕ → ℚ)
    (edf_path : String) (subs : List Submission) (output_path : String)
    (accuracy : ℚ) (seed : Int) (description : String) (t₁ t₂ : Int) :
    run_view (create_egf_with_comparisons prng edf_path subs output_path
        accuracy seed description t₁) =
      run_view (create_egf_with_comparisons prng edf_path subs output_path
        accuracy seed description t₂) :=
  create_view_eq prng edf_path output_path subs accuracy seed description t₁ t₂

/-- C4 counterexample: with the out-of-range accuracy `3/2` the run does
not fail fast; it completes and produces the artifact. -/
theorem c4_fail_fast_counterexample :
    (create_egf_with_comparisons ex_prng "d/test.edf" ex_subs "out.egf"
        (3 / 2) 42 "Test grading with comparisons" 0).isSome = true := by
  rfl

/-- C4 amended: the routine performs no validation of the accuracy target:
for every accuracy value, in range or not, a run on at least three
submissions completes without any error and produces the artifact, the
value being used as drawn rather than rejected. -/
theorem c4_no_accuracy_validation (prng : Int → ℕ → ℚ) (edf_path : String)
    (subs : List Submission) (output_path : String) (accuracy : ℚ)
    (seed : Int) (description : String) (now : Int) (h : 3 ≤ subs.length) :
    (create_egf_with_comparisons prng edf_path subs output_path accuracy seed
        description now).isSome = true := by
  rcases subs with _ | ⟨a, _ | ⟨b, _ | ⟨c, rest⟩⟩⟩
  · simp at h
  · simp at h
  · simp at h
  · rw [create_eq_some]
    rfl

/-- C4 witness: a negative accuracy is likewise accepted. -/
theorem c4_no_accuracy_validation_witness :
    (create_egf_with_comparisons ex_prng "d/test.edf" ex_subs "out.egf"
        (-1 / 2) 42 "Test grading with comparisons" 0).isSome = true :=
  c4_no_accuracy_validation ex_prng "d/test.edf" ex_subs "out.egf" (-1 / 2) 42
    "Test grading with comparisons" 0 (by decide)

/-- C7: every anchor comparison names the fixed sentinel
"external_anchor_exemplar" (absent from the submission set) as its second
participant, has the in-set first participant as winner with the constant
confidence `0.85`; every non-anchor comparison's participants are both in
the submission set, and the first three submissions get exactly one anchor
comparison each. -/
theorem c7_anchor_invariants (prng : Int → ℕ → ℚ) (edf_path : String)
    (subs : List Submission) (output_path : String) (accuracy : ℚ)
    (seed : Int) (description : String) (now : Int) (h : 3 ≤ subs.length)
    (hext : "external_anchor_exemplar" ∉ subs.map Submission.id) :
    ∃ egf nonAnchor anchors,
      create_egf_with_comparisons prng edf_path subs output_path accuracy seed
          description now = some egf ∧
      egf.comparisons = nonAnchor ++ anchors ∧
      (∀ c ∈ nonAnchor, c.submission_a ∈ subs.map Submission.id ∧
        c.submission_b ∈ subs.map Submission.id) ∧
      anchors.length = 3 ∧
      (∀ c ∈ anchors, c.submission_b = "external_anchor_exemplar" ∧
        c.submission_b ∉ subs.map Submission.id ∧ c.winner = "a" ∧
        c.confidence = 17 / 20) ∧
      (∀ i : ℕ, i < 3 →
        (anchors.getD i default).submission_a = (subs.getD i default).id) := by
  rcases subs with _ | ⟨s₀, _ | ⟨s₁, _ | ⟨s₂, rest⟩⟩⟩
  · simp at h
  · simp at h
  · simp at h
  · refine ⟨_, _,
      [anchor_comparison now 0 s₀, anchor_comparison now 1 s₁,
        anchor_comparison now 2 s₂],
      create_eq_some prng edf_path output_path s₀ s₁ s₂ rest accuracy seed
        description now, rfl, ?_, rfl, ?_, ?_⟩
    · intro c hc
      rcases List.mem_map.1 hc with ⟨b, hb, rfl⟩
      have hQ := stateful_map_forall2
        (comp_step (s₀ :: s₁ :: s₂ :: rest) accuracy now)
        (fun kij b =>
          (b.2).submission_a =
              ((s₀ :: s₁ :: s₂ :: rest).getD kij.2.1 default).id ∧
            (b.2).submission_b =
              ((s₀ :: s₁ :: s₂ :: rest).getD kij.2.2 default).id)
        (fun s kij => ⟨rfl, rfl⟩)
        (pair_indices (s₀ :: s₁ :: s₂ :: rest).length).enum
        (grade_records now ⟨prng seed, 0⟩ (s₀ :: s₁ :: s₂ :: rest)).1
      rcases forall2_mem_right hQ b hb with ⟨kij, hmem, hQb⟩
      have hpair : kij.2 ∈ pair_indices (s₀ :: s₁ :: s₂ :: rest).length := by
        have hm := List.mem_enum hmem
        rw [hm.2]
        exact List.getElem_mem hm.1
      have hbounds := (mem_pair_indices _ kij.2.1 kij.2.2).1 hpair
      constructor
      · rw [hQb.1]
        exact List.mem_map_of_mem Submission.id
          (getD_mem_of_lt _ _ (by omega))
      · rw [hQb.2]
        exact List.mem_map_of_mem Submission.id
          (getD_mem_of_lt _ _ (by omega))
    · intro c hc
      have hb : c.submission_b = "external_anchor_exemplar" →
          c.submission_b ∉ (s₀ :: s₁ :: s₂ :: rest).map Submission.id := by
        intro he
        rw [he]
        exact hext
      simp only [List.mem_cons, List.not_mem_nil, or_false] at hc
      rcases hc with rfl | rfl | rfl <;> exact ⟨rfl, hb rfl, rfl, rfl⟩
    · intro i hi
      interval_cases i <;> rfl

/-- C7 witness: the concrete three-submission run satisfies the anchor
invariants. -/
theorem c7_anchor_invariants_witness :
    ∃ egf nonAnchor anchors,
      create_egf_with_comparisons ex_prng "d/test.edf" ex_subs "out.egf"
          (4 / 5) 42 "Test grading with comparisons" 0 = some egf ∧
      egf.comparisons = nonAnchor ++ anchors ∧
      (∀ c ∈ nonAnchor, c.submission_a ∈ ex_subs.map Submission.id ∧
        c.submission_b ∈ ex_subs.map Submission.id) ∧
      anchors.length = 3 ∧
      (∀ c ∈ anchors, c.submission_b = "external_anchor_exemplar" ∧
        c.submission_b ∉ ex_subs.map Submission.id ∧ c.winner = "a" ∧
        c.confidence = 17 / 20) ∧
      (∀ i : ℕ, i < 3 →
        (anchors.getD i default).submission_a = (ex_subs.getD i default).id) :=
  c7_anchor_invariants ex_prng "d/test.edf" ex_subs "out.egf" (4 / 5) 42
    "Test grading with comparisons" 0 (by decide) (by decide)

/-- C8: the artifact holds exactly one CallRecord per grade result and per
comparison (anchors included): `n` grade results, `2n-3+3` comparisons and
`n+(2n-3)+3` call records, and pairing each grade result with the
corresponding entry of the first `n` calls and each comparison with the
corresponding later call, the supporting-call list is exactly the
identifier of its own call record. -/
theorem c8_one_call_record_each (prng : Int → ℕ → ℚ) (edf_path : String)
    (subs : List Submission) (output_path : String) (accuracy : ℚ)
    (seed : Int) (description : String) (now : Int) (h : 3 ≤ subs.length) :
    ∃ egf, create_egf_with_comparisons prng edf_path subs output_path accuracy
        seed description now = some egf ∧
      egf.grade_results.length = subs.length ∧
      egf.comparisons.length = (2 * subs.length - 3) + 3 ∧
      egf.llm_calls.length = subs.length + ((2 * subs.length - 3) + 3) ∧
      List.Forall₂
        (fun gr call => GradeResult.call_ids gr = [CallRecord.call_id call])
        egf.grade_results (egf.llm_calls.take subs.length) ∧
      List.Forall₂
        (fun cp call => Comparison.call_ids cp = [CallRecord.call_id call])
        egf.comparisons (egf.llm_calls.drop subs.length) := by
  rcases subs with _ | ⟨s₀, _ | ⟨s₁, _ | ⟨s₂, rest⟩⟩⟩
  · simp at h
  · simp at h
  · simp at h
  · have hG : (grade_records now ⟨prng seed, 0⟩
        (s₀ :: s₁ :: s₂ :: rest)).2.length =
        (s₀ :: s₁ :: s₂ :: rest).length := by
      rw [grade_records, stateful_map_length, List.enum_length]
    have hC : (comparison_records (s₀ :: s₁ :: s₂ :: rest) accuracy now
        (grade_records now ⟨prng seed, 0⟩
          (s₀ :: s₁ :: s₂ :: rest)).1).2.length =
        (pair_indices (s₀ :: s₁ :: s₂ :: rest).length).length := by
      rw [comparison_records, stateful_map_length, List.enum_length]
    have hP : (pair_indices (s₀ :: s₁ :: s₂ :: rest).length).length =
        2 * (s₀ :: s₁ :: s₂ :: rest).length - 3 :=
      pair_indices_length_eq _ (by simp)
    have hGall := stateful_map_all (grade_step now)
      (fun b : CallRecord × GradeResult => b.2.call_ids = [b.1.call_id])
      (fun s a => rfl) (s₀ :: s₁ :: s₂ :: rest).enum ⟨prng seed, 0⟩
    have hCall := stateful_map_all
      (comp_step (s₀ :: s₁ :: s₂ :: rest) accuracy now)
      (fun b : CallRecord × Comparison => b.2.call_ids = [b.1.call_id])
      (fun s a => rfl)
      (pair_indices (s₀ :: s₁ :: s₂ :: rest).length).enum
      (grade_records now ⟨prng seed, 0⟩ (s₀ :: s₁ :: s₂ :: rest)).1
    refine ⟨_,
      create_eq_some prng edf_path output_path s₀ s₁ s₂ rest accuracy seed
        description now, ?_, ?_, ?_, ?_, ?_⟩
    · rw [List.length_map, hG]
    · rw [List.length_append, List.length_map, hC, hP]
      rfl
    · rw [List.length_append, List.length_append, List.length_map,
        List.length_map, hG, hC, hP]
      rfl
    · rw [List.append_assoc,
        List.take_left' (by rw [List.length_map, hG])]
      exact forall2_map_map fun b hb => hGall b hb
    · rw [List.append_assoc,
        List.drop_left' (by rw [List.length_map, hG])]
      refine List.rel_append ?_ ?_
      · exact @forall2_map_map _ _ _
          (fun cp call => Comparison.call_ids cp = [CallRecord.call_id call])
          Prod.snd Prod.fst _ (fun b hb => hCall b hb)
      · exact List.Forall₂.cons rfl (List.Forall₂.cons rfl
          (List.Forall₂.cons rfl List.Forall₂.nil))

/-- C8 witness: the concrete three-submission run has 3 grade results,
6 comparisons and 9 call records, correctly paired. -/
theorem c8_one_call_record_each_witness :
    ∃ egf, create_egf_with_comparisons ex_prng "d/test.edf" ex_subs "out.egf"
        (4 / 5) 42 "Test grading with comparisons" 0 = some egf ∧
      egf.grade_results.length = ex_subs.length ∧
      egf.comparisons.length = (2 * ex_subs.length - 3) + 3 ∧
      egf.llm_calls.length = ex_subs.length + ((2 * ex_subs.length - 3) + 3) ∧
      List.Forall₂
        (fun gr call => GradeResult.call_ids gr = [CallRecord.call_id call])
        egf.grade_results (egf.llm_calls.take ex_subs.length) ∧
      List.Forall₂
        (fun cp call => Comparison.call_ids cp = [CallRecord.call_id call])
        egf.comparisons (egf.llm_calls.drop ex_subs.length) :=
  c8_one_call_record_each ex_prng "d/test.edf" ex_subs "out.egf" (4 / 5) 42
    "Test grading with comparisons" 0 (by decide)

/-- C10: each grading call record's output text embeds the ground-truth
grade of its submission (not the predicted grade); concretely, with every
raw draw `3/4` the first submission (ground truth 5) gets predicted grade 6
while its call record says "Grade: 5". -/
theorem c10_call_text_embeds_ground_truth (prng : Int → ℕ → ℚ)
    (edf_path : String) (subs : List Submission) (output_path : String)
    (accuracy : ℚ) (seed : Int) (description : String) (now : Int)
    (h : 3 ≤ subs.length) :
    (∃ egf, create_egf_with_comparisons prng edf_path subs output_path
        accuracy seed description now = some egf ∧
      List.Forall₂
        (fun sub call => CallRecord.output_content call =
          "Grade: " ++ toString sub.grade ++
            "\n\nJustification: The submission demonstrates...")
        subs (egf.llm_calls.take subs.length)) ∧
    Option.map
        (fun e => ((e.llm_calls.getD 0 default).output_content,
          (e.grade_results.getD 0 default).grade))
        (create_egf_with_comparisons ex_prng "d/test.edf" ex_subs "out.egf"
          (4 / 5) 42 "Test grading with comparisons" 0) =
      some ("Grade: 5\n\nJustification: The submission demonstrates...", 6) := by
  constructor
  · rcases subs with _ | ⟨s₀, _ | ⟨s₁, _ | ⟨s₂, rest⟩⟩⟩
    · simp at h
    · simp at h
    · simp at h
    · have hG : (grade_records now ⟨prng seed, 0⟩
          (s₀ :: s₁ :: s₂ :: rest)).2.length =
          (s₀ :: s₁ :: s₂ :: rest).length := by
        rw [grade_records, stateful_map_length, List.enum_length]
      refine ⟨_,
        create_eq_some prng edf_path output_path s₀ s₁ s₂ rest accuracy seed
          description now, ?_⟩
      rw [List.append_assoc,
        List.take_left' (by rw [List.length_map, hG])]
      have hQ := stateful_map_forall2 (grade_step now)
        (fun (p : ℕ × Submission) (b : CallRecord × GradeResult) =>
          (b.1).output_content =
            "Grade: " ++ toString p.2.grade ++
              "\n\nJustification: The submission demonstrates...")
        (fun s a => rfl) (s₀ :: s₁ :: s₂ :: rest).enum ⟨prng seed, 0⟩
      rw [List.forall₂_map_right_iff]
      exact forall2_of_forall2_enumFrom hQ
  · rw [show ex_subs = ⟨"s1", 5⟩ :: ⟨"s2", 3⟩ :: ⟨"s3", 7⟩ :: [] from rfl,
      create_eq_some]
    simp only [Option.map_some']
    rw [show (6 : Int) =
        predicted_grade_of 5 ((⟨ex_prng 42, 0⟩ : RNG).randint_pm1).1 by
      rw [ex_randint]; decide]
    rfl

/-- C10 witness: the general call-text property at the concrete
three-submission run. -/
theorem c10_call_text_embeds_ground_truth_witness :
    (∃ egf, create_egf_with_comparisons ex_prng "d/test.edf" ex_subs "out.egf"
        (4 / 5) 42 "Test grading with comparisons" 0 = some egf ∧
      List.Forall₂
        (fun sub call => CallRecord.output_content call =
          "Grade: " ++ toString sub.grade ++
            "\n\nJustification: The submission demonstrates...")
        ex_subs (egf.llm_calls.take ex_subs.length)) ∧
    Option.map
        (fun e => ((e.llm_calls.getD 0 default).output_content,
          (e.grade_results.getD 0 default).grade))
        (create_egf_with_comparisons ex_prng "d/test.edf" ex_subs "out.egf"
          (4 / 5) 42 "Test grading with comparisons" 0) =
      some ("Grade: 5\n\nJustification: The submission demonstrates...", 6) :=
  c10_call_text_embeds_ground_truth ex_prng "d/test.edf" ex_subs "out.egf"
    (4 / 5) 42 "Test grading with comparisons" 0 (by decide)

end Egf
